import Mathlib

/-!
# Verification of the orb anchoring node against its specification

This development shallowly embeds the parts of the orb source that the
specification's claims are about, and settles each claim as a theorem.

Conventions:
* Go byte slices are modelled as `String` (byte strings); Go `int` as `Int`
  or `Nat` where the call sites only pass non-negative values; the `int32`
  counter of the round-robin balancer is modelled as `Int` with explicit
  two's-complement wrapping.
* Fallible Go functions are modelled with `Except`; an error carries a
  `transient` flag mirroring the orb error-tagging discipline
  (`orberrors.NewTransient`), and `fmt.Errorf("...: %w", err)` wrapping
  preserves the innermost tag.
* External collaborators (the storage provider, the IPFS node, the outbox,
  the WebFinger resolver) are modelled as explicit environment records whose
  fields are the functions the code calls.
-/

namespace Orb

/-- An error value with the orb transient/permanent tag.
`transient = true` corresponds to an error wrapped by `orberrors.NewTransient`;
wrapping with `fmt.Errorf("...: %w", err)` preserves the tag. -/
structure OErr where
  transient : Bool
  msg : String
deriving DecidableEq, Repr

/-- `fmt.Errorf("ctx: %w", err)`: adds context, preserves the transient tag. -/
def wrapErr (ctx : String) (e : OErr) : OErr :=
  { e with msg := ctx ++ ": " ++ e.msg }

/-- `orberrors.NewTransient(err)`: marks an error transient. -/
def newTransient (e : OErr) : OErr :=
  { e with transient := true }

@[simp] theorem wrapErr_transient (ctx : String) (e : OErr) :
    (wrapErr ctx e).transient = e.transient := rfl

@[simp] theorem newTransient_transient (e : OErr) :
    (newTransient e).transient = true := rfl

/-! ## Paged ordered collections (`pkg/activitypub/resthandler/handler.go`)

The sort order of a collection query (`spi.SortOrder`). -/

inductive SortOrder where
  | ascending
  | descending
deriving DecidableEq, Repr

/-- `getFirstPageNum(totalItems, pageSize int, sortOrder spi.SortOrder) int`.
`totalItems` and `pageSize` are non-negative at every call site, so they are
taken as `Nat`; the result is `Int` because the source subtracts 1.
Go's integer division on non-negative operands agrees with `Nat` division. -/
def getFirstPageNum (totalItems pageSize : Nat) (sortOrder : SortOrder) : Int :=
  if sortOrder = SortOrder.ascending then 0
  else if totalItems % pageSize > 0 then (totalItems / pageSize : Nat)
  else (totalItems / pageSize : Nat) - 1

/-- `getLastPageNum(totalItems, pageSize int, sortOrder spi.SortOrder) int`. -/
def getLastPageNum (totalItems pageSize : Nat) (sortOrder : SortOrder) : Int :=
  if sortOrder = SortOrder.descending then 0
  else if totalItems % pageSize > 0 then (totalItems / pageSize : Nat)
  else (totalItems / pageSize : Nat) - 1

/-- The ceiling `⌈N/P⌉` on naturals, as used by the spec's paging formulas. -/
def ceilDiv (n p : Nat) : Nat := (n + p - 1) / p

theorem ceilDiv_eq (n p : Nat) (hp : 0 < p) :
    ceilDiv n p = n / p + (if n % p > 0 then 1 else 0) := by
  unfold ceilDiv
  rcases Nat.eq_zero_or_pos (n % p) with h | h
  · obtain ⟨q, hq⟩ : p ∣ n := Nat.dvd_of_mod_eq_zero h
    subst hq
    rw [Nat.mul_div_cancel_left _ hp]
    have hpq : p * q + p - 1 = p * q + (p - 1) := by omega
    rw [hpq, Nat.mul_add_div hp, Nat.div_eq_of_lt (by omega)]
    simp [Nat.mul_mod_right]
  · rw [if_pos h]
    conv_lhs => rw [← Nat.div_add_mod n p]
    have h1 : p * (n / p) + n % p + p - 1 = p * (n / p) + (n % p + p - 1) := by omega
    rw [h1, Nat.mul_add_div hp]
    have hm : n % p < p := Nat.mod_lt n hp
    have h2 : (n % p + p - 1) / p = 1 :=
      Nat.div_eq_of_lt_le (by omega) (by omega)
    omega

/-- `getPrevNextAscending(current, first, last int) (int, int)`:
computes the (prev, next) page numbers for a page in ascending order;
`-1` means "no link". -/
def getPrevNextAscending (current first last : Int) : Int × Int :=
  let next : Int := if current < last then current + 1 else -1
  let prev : Int :=
    if current > first then (if current > last then last else current - 1) else -1
  (prev, next)

/-- `getPrevNextDescending(current, first, last int) (int, int)`. -/
def getPrevNextDescending (current first last : Int) : Int × Int :=
  let next : Int :=
    if current > last then (if current > first then first else current - 1) else -1
  let prev : Int := if current < first then current + 1 else -1
  (prev, next)

/-- The query options relevant to paging (`spi.QueryOptions`): a requested page
number (negative meaning "not specified") and the sort order. The page size
comes with the collection. -/
structure QueryOptions where
  pageNumber : Int
  pageSize : Nat
  sortOrder : SortOrder

/-- `(h *handler) getCurrentPrevNext(totalItems int, options *spi.QueryOptions)`:
returns `(current, prev, next)` page numbers. -/
def getCurrentPrevNext (totalItems : Nat) (options : QueryOptions) :
    Int × Int × Int :=
  let first := getFirstPageNum totalItems options.pageSize options.sortOrder
  let last := getLastPageNum totalItems options.pageSize options.sortOrder
  let current := if options.pageNumber ≥ 0 then options.pageNumber else first
  let pn :=
    if options.sortOrder = SortOrder.descending then
      getPrevNextDescending current first last
    else
      getPrevNextAscending current first last
  (current, pn.1, pn.2)

/-- An `OrderedCollectionPage` response, with the items given by their
insertion indices in the collection, and `prev`/`next` as optional page
numbers (the handler emits a link only when the computed number is `≥ 0`,
cf. `getIDPrevNextURL`). -/
structure CollectionPage where
  orderedItems : List Nat
  totalItems : Nat
  prev : Option Int
  next : Option Int
deriving DecidableEq, Repr

/-- `getIDPrevNextURL` materialises a link only for a non-negative page
number. -/
def pageLink (n : Int) : Option Int := if n ≥ 0 then some n else none

/-- Modelled from the spec: the paged ordered-collection handler
(`activityhandler.go`, whose body is not among the sources; only its tests
are) serves page `p` of a collection of `totalItems` items in descending
order as the items with insertion indices `[p*pageSize, p*pageSize+pageSize)`
intersected with the collection, newest first; `totalItems` is always the
collection size, and `prev`/`next` come from `getCurrentPrevNext`.
A page number beyond the range therefore yields no items. -/
def getPageDescending (totalItems : Nat) (options : QueryOptions) :
    CollectionPage :=
  let cpn := getCurrentPrevNext totalItems options
  let current := cpn.1
  let items :=
    if current ≥ 0 then
      (((List.range totalItems).drop (current.toNat * options.pageSize)).take
        options.pageSize).reverse
    else []
  { orderedItems := items
    totalItems := totalItems
    prev := pageLink cpn.2.1
    next := pageLink cpn.2.2 }

theorem getFirstPageNum_ascending (N P : Nat) :
    getFirstPageNum N P SortOrder.ascending = 0 := rfl

theorem getLastPageNum_descending (N P : Nat) :
    getLastPageNum N P SortOrder.descending = 0 := rfl

theorem getFirstPageNum_descending (N P : Nat) (hP : 0 < P) :
    getFirstPageNum N P SortOrder.descending = (ceilDiv N P : Int) - 1 := by
  unfold getFirstPageNum
  rw [ceilDiv_eq N P hP]
  by_cases h : N % P > 0 <;> simp [h]

theorem getLastPageNum_ascending (N P : Nat) (hP : 0 < P) :
    getLastPageNum N P SortOrder.ascending = (ceilDiv N P : Int) - 1 := by
  unfold getLastPageNum
  rw [ceilDiv_eq N P hP]
  by_cases h : N % P > 0 <;> simp [h]

theorem le_ceilDiv_mul (n p : Nat) (hp : 0 < p) : n ≤ ceilDiv n p * p := by
  rw [ceilDiv_eq n p hp]
  have h := Nat.div_add_mod n p
  have hm : n % p < p := Nat.mod_lt n hp
  have hc : n / p * p = p * (n / p) := Nat.mul_comm _ _
  by_cases hr : n % p > 0 <;> simp [hr, Nat.add_mul, Nat.one_mul] <;> omega

theorem ceilDiv_pos (n p : Nat) (hn : 0 < n) (hp : 0 < p) : 0 < ceilDiv n p := by
  have := le_ceilDiv_mul n p hp
  by_contra h
  simp only [Nat.not_lt, Nat.le_zero] at h
  rw [h] at this
  omega

/-- C3: for `N > 0` items and page size `P > 0`, the collection root's first
and last page numbers are `first = 0`, `last = ⌈N/P⌉ − 1` in ascending order
and `first = ⌈N/P⌉ − 1`, `last = 0` in descending order (`getFirstPageNum`
and `getLastPageNum`). -/
theorem claim_C3_first_last_page_numbers (N P : Nat) (_hN : 0 < N) (hP : 0 < P) :
    getFirstPageNum N P SortOrder.ascending = 0 ∧
    getLastPageNum N P SortOrder.ascending = (ceilDiv N P : Int) - 1 ∧
    getFirstPageNum N P SortOrder.descending = (ceilDiv N P : Int) - 1 ∧
    getLastPageNum N P SortOrder.descending = 0 :=
  ⟨getFirstPageNum_ascending N P, getLastPageNum_ascending N P hP,
    getFirstPageNum_descending N P hP, getLastPageNum_descending N P⟩

theorem claim_C3_witness :
    (0 : Nat) < 19 ∧ (0 : Nat) < 4 ∧
    (getFirstPageNum 19 4 SortOrder.ascending = 0 ∧
      getLastPageNum 19 4 SortOrder.ascending = (ceilDiv 19 4 : Int) - 1 ∧
      getFirstPageNum 19 4 SortOrder.descending = (ceilDiv 19 4 : Int) - 1 ∧
      getLastPageNum 19 4 SortOrder.descending = 0) :=
  ⟨by decide, by decide,
    claim_C3_first_last_page_numbers 19 4 (by decide) (by decide)⟩

/-- C4: a descending page request whose page number exceeds the valid range
(the first/highest page number in descending order) yields an empty
`OrderedCollectionPage` with unchanged `totalItems`, no `prev` link, and a
`next` link pointing at the valid page `⌈N/P⌉ − 1`; concretely, 19 items with
page size 4 and `page-num=30` give `next=page-num=4` and no `prev`. -/
theorem claim_C4_page_num_too_large (N P : Nat) (p : Int) (hN : 0 < N)
    (hP : 0 < P) (hp : p > getFirstPageNum N P SortOrder.descending) :
    getPageDescending N ⟨p, P, SortOrder.descending⟩ =
      ⟨[], N, none, some ((ceilDiv N P : Int) - 1)⟩ := by
  have hfirst := getFirstPageNum_descending N P hP
  have hceil : 0 < ceilDiv N P := ceilDiv_pos N P hN hP
  have hfirst0 : getFirstPageNum N P SortOrder.descending ≥ 0 := by
    rw [hfirst]; omega
  have hp0 : p ≥ 0 := by omega
  have hpceil : (ceilDiv N P : Int) ≤ p := by omega
  unfold getPageDescending getCurrentPrevNext getPrevNextDescending pageLink
  rw [getLastPageNum_descending, hfirst]
  have hplast : (0 : Int) < p := by omega
  have hpfirst : (ceilDiv N P : Int) - 1 < p := by omega
  have hnotprev : ¬ p < (ceilDiv N P : Int) - 1 := by omega
  have hdrop : ((List.range N).drop (p.toNat * P)) = [] := by
    apply List.drop_eq_nil_of_le
    rw [List.length_range]
    calc N ≤ ceilDiv N P * P := le_ceilDiv_mul N P hP
    _ ≤ p.toNat * P := Nat.mul_le_mul_right P (by omega)
  simp [hp0, hplast, hpfirst, hnotprev, hdrop, hfirst0, hceil.ne']

theorem claim_C4_witness :
    (0 : Nat) < 19 ∧ (0 : Nat) < 4 ∧
    (30 : Int) > getFirstPageNum 19 4 SortOrder.descending ∧
    getPageDescending 19 ⟨30, 4, SortOrder.descending⟩ = ⟨[], 19, none, some 4⟩ := by
  refine ⟨by decide, by decide, by decide, ?_⟩
  have h := claim_C4_page_num_too_large 19 4 30 (by decide) (by decide) (by decide)
  have hc : ((ceilDiv 19 4 : Int) - 1) = 4 := by decide
  rw [hc] at h
  exact h

/-! ## DID→anchor index store (`pkg/store/didanchor/store.go`) -/

/-- A batch operation handed to the underlying `storage.Store`
(`storage.Operation`): key, value, and the `IsNewKey` put-option hint
(`PutOptions == nil` is modelled as `isNewKey = false`). -/
structure BatchOp where
  key : String
  value : String
  isNewKey : Bool
deriving DecidableEq, Repr

/-- Error returned by the underlying aries `storage.Store`:
the `storage.ErrDuplicateKey` sentinel, the `storage.ErrDataNotFound`
sentinel, or any other error. -/
inductive StoreErr where
  | duplicateKey
  | dataNotFound
  | other (msg : String)
deriving DecidableEq, Repr

/-- The underlying `storage.Store` instance as the didanchor store sees it:
the results of the calls the code makes. `getBulk` mirrors the facade
contract: one value (possibly nil) per key, in order. -/
structure KVStore where
  batch : List BatchOp → Except StoreErr Unit
  get : String → Except StoreErr String
  getBulk : List String → Except StoreErr (List (Option String))

/-- An error surfaced by the didanchor store layer: the domain sentinel
`didanchor.ErrDataNotFound`, a transient-tagged error
(`orberrors.NewTransient`), or a plain untagged error. -/
inductive DidAnchorErr where
  | dataNotFound
  | transient (msg : String)
  | plain (msg : String)
deriving DecidableEq, Repr

namespace DidAnchorStore

/-- The batch operations built by `PutBulk`'s first attempt, carrying the
`IsNewKey` hints (`areNew[i]`). -/
def putOps (suffixes : List String) (areNew : List Bool) (cid : String) :
    List BatchOp :=
  (suffixes.zip areNew).map fun sn => ⟨sn.1, cid, sn.2⟩

/-- The batch operations built for the retry, without the `IsNewKey` hints. -/
def putOpsNoHint (suffixes : List String) (cid : String) : List BatchOp :=
  suffixes.map fun s => ⟨s, cid, false⟩

/-- `(s *Store) PutBulk(suffixes []string, areNew []bool, cid string) error`.
Besides the result, the model returns the list of `Batch` calls made on the
underlying store, in order. -/
def PutBulk (kv : KVStore) (suffixes : List String) (areNew : List Bool)
    (cid : String) : Except DidAnchorErr Unit × List (List BatchOp) :=
  if suffixes = [] then (.error (.plain "no suffixes provided"), [])
  else
    let ops1 := putOps suffixes areNew cid
    match kv.batch ops1 with
    | .ok _ => (.ok (), [ops1])
    | .error e =>
      if e = .duplicateKey then
        let ops2 := putOpsNoHint suffixes cid
        match kv.batch ops2 with
        | .ok _ => (.ok (), [ops1, ops2])
        | .error _ =>
          (.error (.transient ("failed to add cid[" ++ cid ++ "] to suffixes")),
            [ops1, ops2])
      else
        (.error (.transient ("failed to add cid[" ++ cid ++ "] to suffixes")),
          [ops1])

/-- `(s *Store) GetBulk(suffixes []string) ([]string, error)`:
a `nil` value for a suffix becomes the empty string. -/
def GetBulk (kv : KVStore) (suffixes : List String) :
    Except DidAnchorErr (List String) :=
  match kv.getBulk suffixes with
  | .error _ => .error (.transient "failed to get did anchor reference")
  | .ok anchorBytes =>
    .ok (anchorBytes.map fun a => match a with | none => "" | some s => s)

/-- `(s *Store) Get(suffix string) (string, error)`. -/
def Get (kv : KVStore) (suffix : String) : Except DidAnchorErr String :=
  match kv.get suffix with
  | .ok anchorBytes => .ok anchorBytes
  | .error e =>
    if e = .dataNotFound then .error .dataNotFound
    else .error (.transient "failed to get content from the underlying storage provider")

end DidAnchorStore

/-- A `KVStore` holding no data: single-key reads fail with the store's
not-found sentinel and bulk reads return a nil value per key. -/
def kvEmpty : KVStore where
  batch := fun _ => .ok ()
  get := fun _ => .error .dataNotFound
  getBulk := fun keys => .ok (keys.map fun _ => none)

/-- A `KVStore` that rejects any batch containing an `IsNewKey` hint with the
duplicate-key sentinel and accepts batches without hints. -/
def kvDupOnHint : KVStore where
  batch := fun ops =>
    if ops.any (fun op => op.isNewKey) then .error .duplicateKey else .ok ()
  get := fun _ => .error .dataNotFound
  getBulk := fun keys => .ok (keys.map fun _ => none)

/-- C7 (counterexample): the claim also asserts that the missing-suffix
contract (returning `didanchor.ErrDataNotFound`) holds for bulk reads, but on
a store with no data `GetBulk` succeeds with an empty string in the missing
suffix's position instead of returning the domain not-found error. -/
theorem claim_C7_counterexample :
    DidAnchorStore.Get kvEmpty "missing" = .error .dataNotFound ∧
    DidAnchorStore.GetBulk kvEmpty ["missing"] = .ok [""] ∧
    DidAnchorStore.GetBulk kvEmpty ["missing"] ≠ .error .dataNotFound := by
  refine ⟨rfl, rfl, ?_⟩
  intro h
  simp [DidAnchorStore.GetBulk, kvEmpty] at h

/-- C7 (amended): single-key `Get` translates the storage layer's not-found
sentinel into `didanchor.ErrDataNotFound` and any other storage error into a
transient-tagged error; `GetBulk`, however, does not signal missing suffixes:
it returns the empty string in each missing suffix's position and wraps any
storage error as transient. -/
theorem claim_C7_read_errors (kv : KVStore) (suffix : String)
    (suffixes : List String) :
    (kv.get suffix = .error .dataNotFound →
      DidAnchorStore.Get kv suffix = .error .dataNotFound) ∧
    (∀ v, kv.get suffix = .ok v → DidAnchorStore.Get kv suffix = .ok v) ∧
    (∀ e, kv.get suffix = .error e → e ≠ .dataNotFound →
      ∃ m, DidAnchorStore.Get kv suffix = .error (.transient m)) ∧
    (∀ vals, kv.getBulk suffixes = .ok vals →
      DidAnchorStore.GetBulk kv suffixes =
        .ok (vals.map fun a => match a with | none => "" | some s => s)) ∧
    (∀ e, kv.getBulk suffixes = .error e →
      ∃ m, DidAnchorStore.GetBulk kv suffixes = .error (.transient m)) := by
  refine ⟨?_, ?_, ?_, ?_, ?_⟩
  · intro h
    simp [DidAnchorStore.Get, h]
  · intro v h
    simp [DidAnchorStore.Get, h]
  · intro e h hne
    refine ⟨"failed to get content from the underlying storage provider", ?_⟩
    simp [DidAnchorStore.Get, h, hne]
  · intro vals h
    simp [DidAnchorStore.GetBulk, h]
  · intro e h
    refine ⟨"failed to get did anchor reference", ?_⟩
    simp [DidAnchorStore.GetBulk, h]

theorem claim_C7_witness :
    kvEmpty.get "a" = Except.error StoreErr.dataNotFound ∧
    DidAnchorStore.Get kvEmpty "a" = .error .dataNotFound := by
  refine ⟨rfl, ?_⟩
  exact (claim_C7_read_errors kvEmpty "a" ["a"]).1 rfl

/-- C8: `PutBulk` on a non-empty suffix list writes all `(suffix → anchor)`
entries in one batch carrying the `IsNewKey` hints; the entries are retried
in one batch without the hints exactly when that batch fails with the
duplicate-key sentinel; any other failure, and a failure of the retry, yield
a transient-tagged error; the empty suffix list is rejected. -/
theorem claim_C8_putbulk_retry (kv : KVStore) (suffixes : List String)
    (areNew : List Bool) (cid : String) (hne : suffixes ≠ []) :
    (DidAnchorStore.PutBulk kv [] areNew cid =
      (.error (.plain "no suffixes provided"), [])) ∧
    ((DidAnchorStore.PutBulk kv suffixes areNew cid).2.length = 2 ↔
      kv.batch (DidAnchorStore.putOps suffixes areNew cid) =
        .error .duplicateKey) ∧
    (kv.batch (DidAnchorStore.putOps suffixes areNew cid) = .ok () →
      DidAnchorStore.PutBulk kv suffixes areNew cid =
        (.ok (), [DidAnchorStore.putOps suffixes areNew cid])) ∧
    (kv.batch (DidAnchorStore.putOps suffixes areNew cid) =
        .error .duplicateKey →
      (DidAnchorStore.PutBulk kv suffixes areNew cid).2 =
        [DidAnchorStore.putOps suffixes areNew cid,
          DidAnchorStore.putOpsNoHint suffixes cid] ∧
      (kv.batch (DidAnchorStore.putOpsNoHint suffixes cid) = .ok () →
        (DidAnchorStore.PutBulk kv suffixes areNew cid).1 = .ok ()) ∧
      (∀ e₂, kv.batch (DidAnchorStore.putOpsNoHint suffixes cid) = .error e₂ →
        ∃ m, (DidAnchorStore.PutBulk kv suffixes areNew cid).1 =
          .error (.transient m))) ∧
    (∀ e, kv.batch (DidAnchorStore.putOps suffixes areNew cid) = .error e →
      e ≠ .duplicateKey →
      (∃ m, (DidAnchorStore.PutBulk kv suffixes areNew cid).1 =
        .error (.transient m)) ∧
      (DidAnchorStore.PutBulk kv suffixes areNew cid).2 =
        [DidAnchorStore.putOps suffixes areNew cid]) := by
  unfold DidAnchorStore.PutBulk
  refine ⟨by simp, ?_, ?_, ?_, ?_⟩
  · rcases h1 : kv.batch (DidAnchorStore.putOps suffixes areNew cid) with e | v
    · by_cases he : e = StoreErr.duplicateKey
      · subst he
        rcases h2 : kv.batch (DidAnchorStore.putOpsNoHint suffixes cid) with e₂ | v₂ <;>
          simp [hne, h1, h2]
      · simp [hne, h1, he]
    · simp [hne, h1]
  · intro h1
    simp [hne, h1]
  · intro h1
    rcases h2 : kv.batch (DidAnchorStore.putOpsNoHint suffixes cid) with e₂ | v₂ <;>
      simp [hne, h1, h2]
  · intro e h1 he
    simp [hne, h1, he]

theorem claim_C8_witness :
    (["a"] : List String) ≠ [] ∧
    (kvDupOnHint.batch (DidAnchorStore.putOps ["a"] [true] "c") =
        .error .duplicateKey →
      (DidAnchorStore.PutBulk kvDupOnHint ["a"] [true] "c").2 =
        [DidAnchorStore.putOps ["a"] [true] "c",
          DidAnchorStore.putOpsNoHint ["a"] "c"] ∧
      (kvDupOnHint.batch (DidAnchorStore.putOpsNoHint ["a"] "c") = .ok () →
        (DidAnchorStore.PutBulk kvDupOnHint ["a"] [true] "c").1 = .ok ()) ∧
      (∀ e₂, kvDupOnHint.batch (DidAnchorStore.putOpsNoHint ["a"] "c") =
          .error e₂ →
        ∃ m, (DidAnchorStore.PutBulk kvDupOnHint ["a"] [true] "c").1 =
          .error (.transient m))) :=
  ⟨by decide,
    (claim_C8_putbulk_retry kvDupOnHint ["a"] [true] "c" (by decide)).2.2.2.1⟩

/-! ## IPFS CAS client (`pkg/cas/ipfs/ipfs.go`) -/

/-- Modelled from the spec: the hashlink codec (`pkg/hashlink`) and the
multihash/CID conversions (`pkg/multihash`) are not among the sources.
`mh` renders the multihash of a content (`hashlink` resource hash);
`toV1CID` is `multihash.ToV1CID`; `isCID` is `multihash.IsValidCID`;
`encodeMeta` encodes the alternate-links metadata suffix of a hashlink
(base64url CBOR of the links, per the spec's hashlink format). -/
structure HashCodec where
  mh : String → String
  toV1CID : String → String
  isCID : String → Bool
  encodeMeta : List String → String

/-- Modelled from the spec: a hashlink `hl:<multihash>[:<metadata>]`
(`pkg/hashlink`, not among the sources), kept structured; `render` gives the
string form, which always carries the `hl:` scheme. -/
structure Hashlink where
  resourceHash : String
  links : List String
deriving DecidableEq, Repr

def Hashlink.render (codec : HashCodec) (h : Hashlink) : String :=
  "hl:" ++ h.resourceHash ++
    (if h.links = [] then "" else ":" ++ codec.encodeMeta h.links)

/-- Modelled from the claim and spec: the IPFS node behind the client is a
store that returns what was added. `Add` (with the client's default
`CidVersion(1)` option) computes the version-1 CID of the content, stores
the content under it and returns it; `Cat` returns what is stored under a
CID, or nothing. -/
structure IPFSNode where
  blobs : List (String × String)
deriving DecidableEq, Repr

def IPFSNode.add (codec : HashCodec) (node : IPFSNode) (content : String) :
    String × IPFSNode :=
  let cid := codec.toV1CID (codec.mh content)
  (cid, ⟨(cid, content) :: node.blobs⟩)

def IPFSNode.cat (node : IPFSNode) (cid : String) : Option String :=
  node.blobs.lookup cid

/-- The state of an IPFS CAS `Client`: the node it talks to and its read
cache (the gcache LRU fronting `Read`; eviction is not modelled). -/
structure IPFSClientState where
  node : IPFSNode
  cache : List (String × String)
deriving DecidableEq, Repr

def emptyClientState : IPFSClientState := ⟨⟨[]⟩, []⟩

namespace IPFSClient

/-- `(m *Client) WriteWithCIDFormat(content []byte, ...)` with the default
options (`CIDVersion = 1`): rejects empty content, otherwise adds the
content to the IPFS node and returns the CID. -/
def WriteWithCIDFormat (codec : HashCodec) (st : IPFSClientState)
    (content : String) : Except OErr (String × IPFSClientState) :=
  if content = "" then .error ⟨false, "empty content"⟩
  else
    let res := st.node.add codec content
    .ok (res.1, { st with node := res.2 })

/-- `(m *Client) Write(content []byte) (string, error)`: writes the content,
then returns the hashlink created from the content with the `ipfs://<cid>`
alternate link. -/
def Write (codec : HashCodec) (st : IPFSClientState) (content : String) :
    Except OErr (Hashlink × IPFSClientState) :=
  match WriteWithCIDFormat codec st content with
  | .error e => .error e
  | .ok res => .ok (⟨codec.mh content, ["ipfs://" ++ res.1]⟩, res.2)

/-- `(m *Client) get(cid string)` — the cache loader: `Cat` from the node.
A missing CID surfaces as the IPFS shell's timeout, which the code maps to
`ErrContentNotFound` (permanent); the literal content `"null"` is mapped to
a transient `ErrContentNotFound`. -/
def get (st : IPFSClientState) (cid : String) : Except OErr String :=
  match st.node.cat cid with
  | none => .error ⟨false, "context deadline exceeded: content not found"⟩
  | some content =>
    if content = "null" then .error ⟨true, "content not found"⟩
    else .ok content

/-- The argument of `Read`: either a hashlink (strings with the `hl:`
scheme, kept structured) or a bare CID / multihash string. -/
inductive ReadInput where
  | hashlink (h : Hashlink)
  | cidOrHash (s : String)
deriving DecidableEq, Repr

/-- `(m *Client) getCID(cidOrHash string)`: a hashlink is parsed to its
resource hash; anything that is not already a valid CID is converted with
`ToV1CID` (default `CIDVersion = 1`). -/
def getCID (codec : HashCodec) (input : ReadInput) : String :=
  let cid := match input with
    | .hashlink h => h.resourceHash
    | .cidOrHash s => s
  if codec.isCID cid then cid else codec.toV1CID cid

/-- `(m *Client) Read(cidOrHash string) ([]byte, error)`: resolve the CID,
then serve from the cache, loading through `get` on a miss. -/
def Read (codec : HashCodec) (st : IPFSClientState) (input : ReadInput) :
    Except OErr (String × IPFSClientState) :=
  let cid := getCID codec input
  match st.cache.lookup cid with
  | some content => .ok (content, st)
  | none =>
    match get st cid with
    | .error e => .error e
    | .ok content => .ok (content, { st with cache := (cid, content) :: st.cache })

end IPFSClient

/-- A concrete hash codec for witnesses: injective taggings by string
concatenation; multihash strings are never valid CIDs. -/
def codecTest : HashCodec where
  mh := fun c => "M" ++ c
  toV1CID := fun h => "C" ++ h
  isCID := fun _ => false
  encodeMeta := fun ls => String.intercalate "," ls

/-- C2 (counterexample): the IPFS client maps the literal content `"null"`
to a transient content-not-found error on `Read` (`get` treats `"null"` from
the node as missing content), so `Read(Write("null"))` fails instead of
returning the non-empty content `"null"` unchanged. -/
theorem claim_C2_counterexample :
    IPFSClient.Write codecTest emptyClientState "null" =
      .ok (⟨"Mnull", ["ipfs://CMnull"]⟩, ⟨⟨[("CMnull", "null")]⟩, []⟩) ∧
    IPFSClient.Read codecTest ⟨⟨[("CMnull", "null")]⟩, []⟩
        (.hashlink ⟨"Mnull", ["ipfs://CMnull"]⟩) =
      .error ⟨true, "content not found"⟩ := by
  constructor <;> rfl

/-- C2 (amended): for every non-empty content `c` other than the literal
bytes `"null"`, writing `c` through the IPFS CAS client and reading back the
returned identifier yields `c` unchanged, and the returned hashlink begins
with `hl:` (the node is modelled as a store that returns what was added; a
multihash string is never itself a valid CID). -/
theorem claim_C2_read_write_roundtrip (codec : HashCodec) (node : IPFSNode)
    (c : String) (hne : c ≠ "") (hnull : c ≠ "null")
    (hmh : codec.isCID (codec.mh c) = false) :
    ∃ hl st', IPFSClient.Write codec ⟨node, []⟩ c = .ok (hl, st') ∧
      (∃ rest, hl.render codec = "hl:" ++ rest) ∧
      ∃ st'', IPFSClient.Read codec st' (.hashlink hl) = .ok (c, st'') := by
  refine ⟨⟨codec.mh c, ["ipfs://" ++ codec.toV1CID (codec.mh c)]⟩,
    ⟨⟨(codec.toV1CID (codec.mh c), c) :: node.blobs⟩, []⟩, ?_, ?_, ?_⟩
  · simp [IPFSClient.Write, IPFSClient.WriteWithCIDFormat, IPFSNode.add, hne]
  · refine ⟨codec.mh c ++ ":" ++
      codec.encodeMeta ["ipfs://" ++ codec.toV1CID (codec.mh c)], ?_⟩
    simp [Hashlink.render, String.append_assoc]
  · refine ⟨⟨⟨(codec.toV1CID (codec.mh c), c) :: node.blobs⟩,
      [(codec.toV1CID (codec.mh c), c)]⟩, ?_⟩
    simp [IPFSClient.Read, IPFSClient.getCID, IPFSClient.get, IPFSNode.cat,
      hmh, hnull, List.lookup]

theorem claim_C2_witness :
    ("abc" : String) ≠ "" ∧ ("abc" : String) ≠ "null" ∧
    codecTest.isCID (codecTest.mh "abc") = false ∧
    (∃ hl st', IPFSClient.Write codecTest ⟨⟨[]⟩, []⟩ "abc" = .ok (hl, st') ∧
      (∃ rest, hl.render codecTest = "hl:" ++ rest) ∧
      ∃ st'', IPFSClient.Read codecTest st' (.hashlink hl) = .ok ("abc", st'')) :=
  ⟨by decide, by decide, by decide,
    claim_C2_read_write_roundtrip codecTest ⟨[]⟩ "abc"
      (by decide) (by decide) (by decide)⟩

/-! ## AMQP publisher-pool round-robin balancer (`roundRobin.nextIndex`) -/

/-- Two's-complement wrap to 32 bits: the arithmetic of Go's `int32`
(`atomic.AddInt32`). -/
def wrap32 (x : Int) : Int := (x + 2 ^ 31) % 2 ^ 32 - 2 ^ 31

/-- `(r *roundRobin) nextIndex() int` as a sequential state machine over the
`int32` counter `current` (initially 0, from `newRoundRobin`): the atomic
add increments with `int32` wrap; sequentially the subsequent
compare-and-swap always succeeds, so when the incremented value exceeds
`max` the counter is reset and 0 is returned. Returns
`(result, new counter)`. -/
def nextIndex (max : Int) (current : Int) : Int × Int :=
  let i := wrap32 (current + 1)
  if i > max then (0, 0) else (i, i)

/-- The counter of a `roundRobin` balancer after `n` sequential `nextIndex`
calls, starting from the zero value. -/
def rrState (max : Int) : Nat → Int
  | 0 => 0
  | n + 1 => (nextIndex max (rrState max n)).2

theorem wrap32_eq (x : Int) (h0 : -2 ^ 31 ≤ x) (h1 : x < 2 ^ 31) :
    wrap32 x = x := by
  unfold wrap32
  omega

theorem nextIndex_bounds (max current : Int) (hmax0 : 0 ≤ max)
    (hmax : max ≤ 2 ^ 31 - 2) (hc0 : 0 ≤ current) (hc1 : current ≤ max) :
    0 ≤ (nextIndex max current).1 ∧ (nextIndex max current).1 ≤ max ∧
    0 ≤ (nextIndex max current).2 ∧ (nextIndex max current).2 ≤ max := by
  unfold nextIndex
  rw [wrap32_eq (current + 1) (by omega) (by omega)]
  by_cases h : current + 1 > max <;> simp [h] <;> omega

theorem rrState_bounds (max : Int) (hmax0 : 0 ≤ max)
    (hmax : max ≤ 2 ^ 31 - 2) (n : Nat) :
    0 ≤ rrState max n ∧ rrState max n ≤ max := by
  induction n with
  | zero => exact ⟨le_refl 0, hmax0⟩
  | succ n ih =>
    have h := nextIndex_bounds max (rrState max n) hmax0 hmax ih.1 ih.2
    exact ⟨h.2.2.1, h.2.2.2⟩

/-- With `max = 2^31 − 1` each call increments the counter without reset,
so after `n ≤ 2^31 − 1` calls the counter equals `n`. -/
theorem rrState_id (n : Nat) (h : (n : Int) ≤ 2 ^ 31 - 1) :
    rrState (2 ^ 31 - 1) n = n := by
  induction n with
  | zero => rfl
  | succ n ih =>
    have hn : (n : Int) ≤ 2 ^ 31 - 1 := by push_cast at h ⊢; omega
    have hstate := ih hn
    have hlt : ¬ ((n : Int) + 1 > 2 ^ 31 - 1) := by push_cast at h ⊢; omega
    show (nextIndex (2 ^ 31 - 1) (rrState (2 ^ 31 - 1) n)).2 = _
    rw [hstate]
    simp only [nextIndex]
    rw [wrap32_eq ((n : Int) + 1) (by omega) (by push_cast at h ⊢; omega)]
    rw [if_neg hlt]
    push_cast
    rfl

/-- C10 (counterexample): the counter is an `int32`. For the balancer
created with `max = 2^31 − 1 = 2147483647` (which satisfies `max ≥ 0`), the
2147483648th sequential call wraps the counter and `nextIndex` returns
`−2^31`, a negative index, falsifying `0 ≤ i ≤ max`. -/
theorem claim_C10_counterexample :
    (nextIndex 2147483647 (rrState 2147483647 2147483647)).1 = -2147483648 ∧
    ¬ (0 ≤ (nextIndex 2147483647 (rrState 2147483647 2147483647)).1) := by
  have h31 : (2147483647 : Int) = 2 ^ 31 - 1 := by norm_num
  have hs : rrState 2147483647 2147483647 = 2147483647 := by
    rw [h31]
    have := rrState_id 2147483647 (by norm_num)
    simpa using this
  rw [hs]
  unfold nextIndex wrap32
  norm_num

/-- C10 (amended): for every round-robin balancer created with
`0 ≤ max ≤ 2^31 − 2`, every sequential call to `nextIndex` returns an index
`i` with `0 ≤ i ≤ max` (so the publisher pool, whose `max` is the publisher
count minus one, always selects an existing publisher); the counter itself
also stays within `[0, max]`. The bound excludes `max = 2^31 − 1`, where the
`int32` counter wraps (see the counterexample). -/
theorem claim_C10_next_index_in_range (max : Int) (hmax0 : 0 ≤ max)
    (hmax : max ≤ 2 ^ 31 - 2) (n : Nat) :
    0 ≤ (nextIndex max (rrState max n)).1 ∧
    (nextIndex max (rrState max n)).1 ≤ max ∧
    0 ≤ rrState max n ∧ rrState max n ≤ max := by
  have hs := rrState_bounds max hmax0 hmax n
  have h := nextIndex_bounds max (rrState max n) hmax0 hmax hs.1 hs.2
  exact ⟨h.1, h.2.1, hs.1, hs.2⟩

theorem claim_C10_witness :
    (0 : Int) ≤ 2 ∧ (2 : Int) ≤ 2 ^ 31 - 2 ∧
    (0 ≤ (nextIndex 2 (rrState 2 5)).1 ∧ (nextIndex 2 (rrState 2 5)).1 ≤ 2 ∧
      0 ≤ rrState 2 5 ∧ rrState 2 5 ≤ 2) :=
  ⟨by norm_num, by norm_num,
    claim_C10_next_index_in_range 2 (by norm_num) (by norm_num) 5⟩

/-! ## Unpublished operation store (`src/unnamed/part_001`, package
`unpublished`) -/

/-- A Sidetree `operation.AnchoredOperation` as staged in the unpublished
store; `uniqueSuffix` is the DID suffix tag, `operationRequest` the payload
the key is derived from. -/
structure AnchoredOperation where
  uniqueSuffix : String
  operationRequest : String
deriving DecidableEq, Repr

/-- One stored entry: the multihash key, the marshalled operation wrapper
(`operationWrapper` = the operation plus its expiration time), and its
`uniqueSuffix` tag. -/
structure UnpubEntry where
  key : String
  op : AnchoredOperation
  expirationTime : Int
deriving DecidableEq, Repr

/-- The unpublished-operation store contents. The iterator produced by
`Query("uniqueSuffix:<suffix>")` yields the entries whose suffix tag equals
the suffix, in store order; the in-memory model is an error-free iterator,
and unmarshalling a stored wrapper recovers the operation. -/
structure UnpubStore where
  entries : List UnpubEntry
deriving DecidableEq, Repr

/-- The error of the unpublished store's `Get`: the dedicated error returned
when no operation is tagged with the suffix
(`"suffix[...] not found in the unpublished operation store"`). -/
inductive UnpubErr where
  | suffixNotFound (suffix : String)
deriving DecidableEq, Repr

namespace UnpubOpStore

/-- The query `uniqueSuffix:<suffix>`: the stored entries whose tag equals
the suffix, in store order. -/
def query (st : UnpubStore) (suffix : String) : List UnpubEntry :=
  st.entries.filter fun e => e.op.uniqueSuffix == suffix

/-- `(s *Store) Get(suffix string) ([]*operation.AnchoredOperation, error)`:
iterate the query, unmarshal each stored value, and fail with the store's
not-found error when no operation was accumulated. -/
def Get (st : UnpubStore) (suffix : String) :
    Except UnpubErr (List AnchoredOperation) :=
  let ops := (query st suffix).map fun e => e.op
  if ops.length = 0 then .error (.suffixNotFound suffix)
  else .ok ops

end UnpubOpStore

/-- C9: `Get` on the unpublished operation store either returns the complete
list of stored operations tagged with the suffix (in store order), or fails
with the store's dedicated not-found error exactly when no stored operation
carries the suffix; a successful result is never empty, and no other outcome
exists. -/
theorem claim_C9_unpublished_get (st : UnpubStore) (suffix : String) :
    (UnpubOpStore.Get st suffix = .error (.suffixNotFound suffix) ↔
      ∀ e ∈ st.entries, e.op.uniqueSuffix ≠ suffix) ∧
    (∀ ops, UnpubOpStore.Get st suffix = .ok ops →
      ops = (st.entries.filter fun e => e.op.uniqueSuffix == suffix).map
        (fun e => e.op) ∧ ops ≠ []) ∧
    ((∃ e ∈ st.entries, e.op.uniqueSuffix = suffix) →
      UnpubOpStore.Get st suffix =
        .ok ((st.entries.filter fun e => e.op.uniqueSuffix == suffix).map
          fun e => e.op)) := by
  have hget : UnpubOpStore.Get st suffix =
      if ((st.entries.filter fun e => e.op.uniqueSuffix == suffix).map
          (fun e => e.op)).length = 0
      then .error (.suffixNotFound suffix)
      else .ok ((st.entries.filter fun e => e.op.uniqueSuffix == suffix).map
        fun e => e.op) := rfl
  by_cases h : ((st.entries.filter fun e => e.op.uniqueSuffix == suffix).map
      (fun e => e.op)).length = 0
  case pos =>
    have hall : ∀ e ∈ st.entries, e.op.uniqueSuffix ≠ suffix := by
      simpa [List.length_eq_zero, List.map_eq_nil_iff, List.filter_eq_nil_iff,
        beq_iff_eq] using h
    rw [hget, if_pos h]
    refine ⟨iff_of_true rfl hall, ?_, ?_⟩
    · intro ops hops
      cases hops
    · rintro ⟨e, he, hs⟩
      exact absurd hs (hall e he)
  case neg =>
    have hex : ¬ ∀ e ∈ st.entries, e.op.uniqueSuffix ≠ suffix := by
      intro hall
      apply h
      simp only [List.length_eq_zero, List.map_eq_nil_iff,
        List.filter_eq_nil_iff, beq_iff_eq]
      exact hall
    rw [hget, if_neg h]
    refine ⟨iff_of_false (by simp) hex, ?_, fun _ => rfl⟩
    intro ops hops
    injection hops with h2
    subst h2
    refine ⟨rfl, ?_⟩
    intro hnil
    apply h
    rw [hnil]
    rfl

theorem claim_C9_witness :
    (∃ e ∈ ({ entries := [⟨"k1", ⟨"s1", "op1"⟩, 5⟩] } : UnpubStore).entries,
      e.op.uniqueSuffix = "s1") ∧
    UnpubOpStore.Get { entries := [⟨"k1", ⟨"s1", "op1"⟩, 5⟩] } "s1" =
      .ok [⟨"s1", "op1"⟩] := by
  constructor
  · exact ⟨⟨"k1", ⟨"s1", "op1"⟩, 5⟩, by simp, rfl⟩
  · have h := (claim_C9_unpublished_get
      { entries := [⟨"k1", ⟨"s1", "op1"⟩, 5⟩] } "s1").2.2
      ⟨⟨"k1", ⟨"s1", "op1"⟩, 5⟩, by simp, rfl⟩
    rw [h]
    rfl

/-! ## Observer (`pkg/observer/observer.go`) -/

/-- `anchorinfo.AnchorInfo`: the anchor-topic message payload. -/
structure AnchorInfo where
  hashlink : String
  localHashlink : String
  attributedTo : String
deriving DecidableEq, Repr

/-- The anchor payload extracted from an anchor credential by
`util.GetAnchorSubject`: namespace, protocol version, core index URI,
operation count and the previous-anchor map (as an association list). -/
structure AnchorPayload where
  Namespace : String
  Version : Nat
  CoreIndex : String
  OperationCount : Nat
  PreviousAnchors : List (String × String)
deriving DecidableEq, Repr

/-- A verifiable credential as the observer consumes it: opaque content for
the payload extraction plus its issuance time (`info.Issued`). -/
structure VerifiableCredential where
  bytes : String
  issued : Nat
deriving DecidableEq, Repr

/-- `txnapi.SidetreeTxn` as built by `processAnchor`. -/
structure SidetreeTxn where
  TransactionTime : Nat
  AnchorString : String
  Namespace : String
  ProtocolGenesisTime : Nat
  CanonicalReference : String
  EquivalentReferences : List String
deriving DecidableEq, Repr

/-- `vocab.PublicIRI`. -/
def publicIRI : String := "https://www.w3.org/ns/activitystreams#Public"

/-- A `Like` activity as built by `doPostLikeActivity`: the anchor reference
it targets, the recipients, and the optional `result` (the local
hashlink). -/
structure Like where
  object : String
  To : List String
  result : Option String
deriving DecidableEq, Repr

/-- The observer's collaborators, as the functions `processAnchor`,
`postLikeActivity` and `handleAnchor` call them. URLs are modelled by the
string `url.Parse` normalises them to, so `parseURL` returns the parsed
URL's `String()`. `getResourceHash` is
`hashlink.GetResourceHashFromHashLink` (package `hashlink` is not among the
sources; modelled as an opaque fallible extraction). `credAttributedTo`
bundles `verifiable.ParseCredential` and the `attributedTo` subject-field
lookup of `resolveActorFromHashlink`. -/
structure ObserverEnv where
  anchorGraphRead : String → Except OErr VerifiableCredential
  getAnchorSubject : VerifiableCredential → Except OErr AnchorPayload
  forNamespace : String → Except OErr Unit
  getVersion : Nat → Except OErr Unit
  getResourceHash : String → Except OErr String
  process : SidetreeTxn → List String → Except OErr Unit
  putBulk : List String → String → Except OErr Unit
  parseURL : String → Except OErr String
  outboxPost : Like → Except OErr Unit
  casResolve : String → Except OErr String
  credAttributedTo : String → Except OErr String
  resolveHostMetaLink : String → Except OErr String

namespace Observer

/-- `util.AnchorData.GetAnchorString`: modelled from the spec as the
Sidetree anchor string `<operationCount>.<coreIndexFileURI>` (package
`anchor/util` is not among the sources). -/
def getAnchorString (operationCount : Nat) (coreIndexFileURI : String) :
    String :=
  toString operationCount ++ "." ++ coreIndexFileURI

/-- The `txnapi.SidetreeTxn` built by `processAnchor`, with the optional
discovery-domain equivalent reference. -/
def mkSidetreeTxn (discoveryDomain : String) (anchor : AnchorInfo)
    (vc : VerifiableCredential) (payload : AnchorPayload)
    (canonicalID : String) : SidetreeTxn :=
  { TransactionTime := vc.issued
    AnchorString := getAnchorString payload.OperationCount payload.CoreIndex
    Namespace := payload.Namespace
    ProtocolGenesisTime := payload.Version
    CanonicalReference := canonicalID
    EquivalentReferences :=
      [anchor.hashlink] ++
        (if discoveryDomain ≠ "" then
          ["https:" ++ discoveryDomain ++ ":" ++ canonicalID]
        else []) }

/-- `(o *Observer) doPostLikeActivity(to, refURL *url.URL, result ...)`:
builds the `Like` (recipients `to` and Public, object the anchor reference,
`result` as given) and posts it to the outbox. Returns the built activity
and the outcome. -/
def doPostLikeActivity (env : ObserverEnv) (toActor refURL : String)
    (result : Option String) : Like × Except OErr Unit :=
  let like : Like := ⟨refURL, [toActor, publicIRI], result⟩
  (like,
    match env.outboxPost like with
    | .error e => .error (wrapErr "post like" e)
    | .ok _ => .ok ())

/-- `(o *Observer) resolveActorFromHashlink(hl string)`: fetch the anchor
credential through the CAS resolver, read its `attributedTo` subject field,
resolve it through WebFinger (`ResolveHostMetaLink`) and parse the
resulting URL. -/
def resolveActorFromHashlink (env : ObserverEnv) (hl : String) :
    Except OErr String :=
  match env.casResolve hl with
  | .error e => .error (wrapErr "resolve anchor credential" e)
  | .ok vcBytes =>
    match env.credAttributedTo vcBytes with
    | .error e => .error e
    | .ok attributedTo =>
      match env.resolveHostMetaLink attributedTo with
      | .error e => .error (wrapErr "resolve host meta-link" e)
      | .ok hml =>
        match env.parseURL hml with
        | .error e => .error (wrapErr "parse URL" e)
        | .ok actor => .ok actor

/-- `(o *Observer) postLikeActivity(anchor *anchorinfo.AnchorInfo)`:
no-op when `attributedTo` is empty; otherwise posts a `Like` (with `result`
the local hashlink when present) to `attributedTo`, resolves the anchor
credential's author, and posts a second `Like` to the author when it
differs from `attributedTo`. Returns the activities handed to the outbox,
in order, and the outcome. -/
def postLikeActivity (env : ObserverEnv) (anchor : AnchorInfo) :
    List Like × Except OErr Unit :=
  if anchor.attributedTo = "" then ([], .ok ())
  else
    match env.parseURL anchor.hashlink with
    | .error e => ([], .error (wrapErr "parse hash link" e))
    | .ok refURL =>
      match env.parseURL anchor.attributedTo with
      | .error e => ([], .error (wrapErr "parse origin" e))
      | .ok attributedTo =>
        let resultStep : Except OErr (Option String) :=
          if anchor.localHashlink ≠ "" then
            match env.parseURL anchor.localHashlink with
            | .error e => .error (wrapErr "parse local hashlink" e)
            | .ok u => .ok (some u)
          else .ok none
        match resultStep with
        | .error e => ([], .error e)
        | .ok result =>
          let d1 := doPostLikeActivity env attributedTo refURL result
          match d1.2 with
          | .error e => ([d1.1], .error (wrapErr "post like" e))
          | .ok _ =>
            match resolveActorFromHashlink env refURL with
            | .error e =>
              ([d1.1], .error (wrapErr "resolve origin actor for hashlink" e))
            | .ok originActor =>
              if anchor.attributedTo = originActor then ([d1.1], .ok ())
              else
                let d2 := doPostLikeActivity env originActor refURL result
                match d2.2 with
                | .error e =>
                  ([d1.1, d2.1],
                    .error (wrapErr "post Like activity to outbox for hashlink" e))
                | .ok _ => ([d1.1, d2.1], .ok ())

/-- `(o *Observer) processAnchor(anchor, info, suffixes...)`: extract the
payload, look up the protocol client and version, compute the canonical ID,
run the Sidetree transaction processor, update the DID→anchor index, and
finally post the `Like` activity — whose failure is only logged ("this is
not a critical error ... we don't want to trigger a retry"), never
returned. Returns the posted activities and the outcome. -/
def processAnchor (env : ObserverEnv) (discoveryDomain : String)
    (anchor : AnchorInfo) (info : VerifiableCredential)
    (suffixes : List String) : List Like × Except OErr Unit :=
  match env.getAnchorSubject info with
  | .error e =>
    ([], .error (wrapErr "failed to extract anchor payload from anchor" e))
  | .ok anchorPayload =>
    match env.forNamespace anchorPayload.Namespace with
    | .error e =>
      ([], .error (wrapErr "failed to get protocol client for namespace" e))
    | .ok _ =>
      match env.getVersion anchorPayload.Version with
      | .error e =>
        ([],
          .error (wrapErr "failed to get protocol version for transaction time" e))
      | .ok _ =>
        match env.getResourceHash anchor.hashlink with
        | .error e => ([], .error (wrapErr "failed to get canonical ID from hl" e))
        | .ok canonicalID =>
          match env.process
              (mkSidetreeTxn discoveryDomain anchor info anchorPayload canonicalID)
              suffixes with
          | .error e =>
            ([], .error (wrapErr "failed to processAnchors core index" e))
          | .ok _ =>
            match env.putBulk (anchorPayload.PreviousAnchors.map Prod.fst)
                anchor.hashlink with
            | .error e =>
              ([],
                .error
                  (wrapErr "failed updating did anchor references for anchor credential" e))
            | .ok _ =>
              let pl := postLikeActivity env anchor
              (pl.1, .ok ())

/-- `(o *Observer) handleAnchor(anchor *anchorinfo.AnchorInfo)`: read the
anchor from the anchor graph and process it (with no suffix restriction);
both failures are returned to the message-bus acknowledgement logic. -/
def handleAnchor (env : ObserverEnv) (discoveryDomain : String)
    (anchor : AnchorInfo) : List Like × Except OErr Unit :=
  match env.anchorGraphRead anchor.hashlink with
  | .error e => ([], .error e)
  | .ok anchorInfo => processAnchor env discoveryDomain anchor anchorInfo []

end Observer

/-- An observer environment in which every materialisation step succeeds but
every post to the outbox fails with a transient (connection) error. -/
def envLikeFails : ObserverEnv where
  anchorGraphRead := fun _ => .ok ⟨"vc", 0⟩
  getAnchorSubject := fun _ =>
    .ok ⟨"did:orb", 1, "coreIndex", 2, [("suffix1", "prevHL")]⟩
  forNamespace := fun _ => .ok ()
  getVersion := fun _ => .ok ()
  getResourceHash := fun s => .ok s
  process := fun _ _ => .ok ()
  putBulk := fun _ _ => .ok ()
  parseURL := fun s => .ok s
  outboxPost := fun _ => .error ⟨true, "connection refused"⟩
  casResolve := fun _ => .ok "vcBytes"
  credAttributedTo := fun _ => .ok "https://origin.example"
  resolveHostMetaLink := fun s => .ok s

/-- A sample anchor-topic message. -/
def anchorMsg : AnchorInfo :=
  ⟨"hl:anchor", "hl:local", "https://attributed.example"⟩

/-- C5 (counterexample): with every materialisation step succeeding and the
outbox failing transiently, the `Like` posting fails with a transient-tagged
error, yet `processAnchor`/`handleAnchor` return success (the error is only
logged), so the message is positively acknowledged rather than redelivered.
The claim's "including the posting of the resulting Like activity" is false
on the code. -/
theorem claim_C5_counterexample :
    (Observer.handleAnchor envLikeFails "" anchorMsg).2 = .ok () ∧
    (Observer.handleAnchor envLikeFails "" anchorMsg).1 =
      [⟨"hl:anchor", ["https://attributed.example", publicIRI],
        some "hl:local"⟩] ∧
    ∃ e, (Observer.postLikeActivity envLikeFails anchorMsg).2 = .error e ∧
      e.transient = true :=
  ⟨rfl, rfl, ⟨⟨true, "post like: post like: connection refused"⟩, rfl, rfl⟩⟩

/-- C5 (amended): every error arising during anchor materialisation — from
payload extraction up to and including the DID→anchor index update — is
returned by `processAnchor` with its transient/permanent tag preserved
(each wrap is `wrapErr`, which keeps the tag), and `handleAnchor` propagates
both anchor-graph read errors and `processAnchor` errors to the bus
acknowledgement logic; but the outcome is completely insensitive to the
`Like`-posting collaborators (outbox, CAS resolver, WebFinger), whose
failures — transient or not — are only logged. -/
theorem claim_C5_error_propagation (env : ObserverEnv) (d : String)
    (anchor : AnchorInfo) (info : VerifiableCredential)
    (suffixes : List String) :
    (∀ env' : ObserverEnv,
      env'.getAnchorSubject = env.getAnchorSubject →
      env'.forNamespace = env.forNamespace →
      env'.getVersion = env.getVersion →
      env'.getResourceHash = env.getResourceHash →
      env'.process = env.process →
      env'.putBulk = env.putBulk →
      (Observer.processAnchor env' d anchor info suffixes).2 =
        (Observer.processAnchor env d anchor info suffixes).2) ∧
    (∀ payload, env.getAnchorSubject info = .ok payload →
      env.forNamespace payload.Namespace = .ok () →
      env.getVersion payload.Version = .ok () →
      ∀ cid, env.getResourceHash anchor.hashlink = .ok cid →
      env.process (Observer.mkSidetreeTxn d anchor info payload cid)
        suffixes = .ok () →
      env.putBulk (payload.PreviousAnchors.map Prod.fst) anchor.hashlink =
        .ok () →
      (Observer.processAnchor env d anchor info suffixes).2 = .ok ()) ∧
    (∀ e, env.getAnchorSubject info = .error e →
      (Observer.processAnchor env d anchor info suffixes).2 =
        .error (wrapErr "failed to extract anchor payload from anchor" e)) ∧
    (∀ payload e, env.getAnchorSubject info = .ok payload →
      env.forNamespace payload.Namespace = .error e →
      (Observer.processAnchor env d anchor info suffixes).2 =
        .error (wrapErr "failed to get protocol client for namespace" e)) ∧
    (∀ payload e, env.getAnchorSubject info = .ok payload →
      env.forNamespace payload.Namespace = .ok () →
      env.getVersion payload.Version = .error e →
      (Observer.processAnchor env d anchor info suffixes).2 =
        .error (wrapErr "failed to get protocol version for transaction time" e)) ∧
    (∀ payload e, env.getAnchorSubject info = .ok payload →
      env.forNamespace payload.Namespace = .ok () →
      env.getVersion payload.Version = .ok () →
      env.getResourceHash anchor.hashlink = .error e →
      (Observer.processAnchor env d anchor info suffixes).2 =
        .error (wrapErr "failed to get canonical ID from hl" e)) ∧
    (∀ payload e, env.getAnchorSubject info = .ok payload →
      env.forNamespace payload.Namespace = .ok () →
      env.getVersion payload.Version = .ok () →
      ∀ cid, env.getResourceHash anchor.hashlink = .ok cid →
      env.process (Observer.mkSidetreeTxn d anchor info payload cid)
        suffixes = .error e →
      (Observer.processAnchor env d anchor info suffixes).2 =
        .error (wrapErr "failed to processAnchors core index" e)) ∧
    (∀ payload e, env.getAnchorSubject info = .ok payload →
      env.forNamespace payload.Namespace = .ok () →
      env.getVersion payload.Version = .ok () →
      ∀ cid, env.getResourceHash anchor.hashlink = .ok cid →
      env.process (Observer.mkSidetreeTxn d anchor info payload cid)
        suffixes = .ok () →
      env.putBulk (payload.PreviousAnchors.map Prod.fst) anchor.hashlink =
        .error e →
      (Observer.processAnchor env d anchor info suffixes).2 =
        .error
          (wrapErr "failed updating did anchor references for anchor credential" e)) ∧
    (∀ e, env.anchorGraphRead anchor.hashlink = .error e →
      Observer.handleAnchor env d anchor = ([], .error e)) ∧
    (∀ vc0, env.anchorGraphRead anchor.hashlink = .ok vc0 →
      Observer.handleAnchor env d anchor =
        Observer.processAnchor env d anchor vc0 []) := by
  refine ⟨?_, ?_, ?_, ?_, ?_, ?_, ?_, ?_, ?_, ?_⟩
  · intro env' h1 h2 h3 h4 h5 h6
    rcases hA : env.getAnchorSubject info with e | payload
    · simp [Observer.processAnchor, h1, h2, h3, h4, h5, h6, hA]
    rcases hB : env.forNamespace payload.Namespace with e | uB
    · simp [Observer.processAnchor, h1, h2, h3, h4, h5, h6, hA, hB]
    rcases hC : env.getVersion payload.Version with e | uC
    · simp [Observer.processAnchor, h1, h2, h3, h4, h5, h6, hA, hB, hC]
    rcases hD : env.getResourceHash anchor.hashlink with e | cid
    · simp [Observer.processAnchor, h1, h2, h3, h4, h5, h6, hA, hB, hC, hD]
    rcases hE : env.process (Observer.mkSidetreeTxn d anchor info payload cid)
      suffixes with e | uE
    · simp [Observer.processAnchor, h1, h2, h3, h4, h5, h6, hA, hB, hC, hD, hE]
    rcases hF : env.putBulk (payload.PreviousAnchors.map Prod.fst)
      anchor.hashlink with e | uF <;>
      simp [Observer.processAnchor, h1, h2, h3, h4, h5, h6, hA, hB, hC, hD, hE, hF]
  · intro payload h1 h2 h3 cid h4 h5 h6
    simp [Observer.processAnchor, h1, h2, h3, h4, h5, h6]
  · intro e h1
    simp [Observer.processAnchor, h1]
  · intro payload e h1 h2
    simp [Observer.processAnchor, h1, h2]
  · intro payload e h1 h2 h3
    simp [Observer.processAnchor, h1, h2, h3]
  · intro payload e h1 h2 h3 h4
    simp [Observer.processAnchor, h1, h2, h3, h4]
  · intro payload e h1 h2 h3 cid h4 h5
    simp [Observer.processAnchor, h1, h2, h3, h4, h5]
  · intro payload e h1 h2 h3 cid h4 h5 h6
    simp [Observer.processAnchor, h1, h2, h3, h4, h5, h6]
  · intro e h1
    simp [Observer.handleAnchor, h1]
  · intro vc0 h1
    simp [Observer.handleAnchor, h1]

theorem claim_C5_witness :
    envLikeFails.getAnchorSubject ⟨"vc", 0⟩ =
      .ok ⟨"did:orb", 1, "coreIndex", 2, [("suffix1", "prevHL")]⟩ ∧
    (Observer.processAnchor envLikeFails "" anchorMsg ⟨"vc", 0⟩ []).2 =
      .ok () :=
  ⟨rfl,
    (claim_C5_error_propagation envLikeFails "" anchorMsg ⟨"vc", 0⟩ []).2.1
      ⟨"did:orb", 1, "coreIndex", 2, [("suffix1", "prevHL")]⟩
      rfl rfl rfl "hl:anchor" rfl rfl rfl⟩

/-- The environment of `envLikeFails` with a healthy outbox. -/
def envLikeOk : ObserverEnv :=
  { envLikeFails with outboxPost := fun _ => .ok () }

/-- C6: after successful materialisation, `postLikeActivity` posts nothing
when `attributedTo` is empty; otherwise it posts a `Like` to `attributedTo`
whose `result` is the local hashlink, resolves the anchor credential's
author (CAS fetch, `attributedTo` subject field, WebFinger), and posts a
second `Like` to the author exactly when the resolved author differs from
`attributedTo`. -/
theorem claim_C6_like_posting (env : ObserverEnv) (anchor : AnchorInfo)
    (author : String)
    (hp1 : env.parseURL anchor.hashlink = .ok anchor.hashlink)
    (hp2 : env.parseURL anchor.attributedTo = .ok anchor.attributedTo)
    (hp3 : env.parseURL anchor.localHashlink = .ok anchor.localHashlink)
    (hlocal : anchor.localHashlink ≠ "")
    (hpost : ∀ l, env.outboxPost l = .ok ())
    (hresolve : Observer.resolveActorFromHashlink env anchor.hashlink =
      .ok author) :
    (anchor.attributedTo = "" →
      Observer.postLikeActivity env anchor = ([], .ok ())) ∧
    (anchor.attributedTo ≠ "" →
      (author = anchor.attributedTo →
        Observer.postLikeActivity env anchor =
          ([⟨anchor.hashlink, [anchor.attributedTo, publicIRI],
            some anchor.localHashlink⟩], .ok ())) ∧
      (author ≠ anchor.attributedTo →
        Observer.postLikeActivity env anchor =
          ([⟨anchor.hashlink, [anchor.attributedTo, publicIRI],
              some anchor.localHashlink⟩,
            ⟨anchor.hashlink, [author, publicIRI],
              some anchor.localHashlink⟩], .ok ()))) := by
  constructor
  · intro h
    simp [Observer.postLikeActivity, h]
  · intro hne
    constructor
    · intro heq
      subst heq
      simp [Observer.postLikeActivity, hne, hp1, hp2, hp3, hlocal,
        Observer.doPostLikeActivity, hpost, hresolve]
    · intro hneq
      have h' : ¬ (anchor.attributedTo = author) := fun h => hneq h.symm
      simp [Observer.postLikeActivity, hne, hp1, hp2, hp3, hlocal,
        Observer.doPostLikeActivity, hpost, hresolve, h']

theorem claim_C6_witness :
    Observer.resolveActorFromHashlink envLikeOk anchorMsg.hashlink =
      .ok "https://origin.example" ∧
    ("https://origin.example" : String) ≠ anchorMsg.attributedTo ∧
    Observer.postLikeActivity envLikeOk anchorMsg =
      ([⟨"hl:anchor", ["https://attributed.example", publicIRI],
          some "hl:local"⟩,
        ⟨"hl:anchor", ["https://origin.example", publicIRI],
          some "hl:local"⟩], .ok ()) := by
  refine ⟨rfl, by decide, ?_⟩
  have h := ((claim_C6_like_posting envLikeOk anchorMsg
    "https://origin.example" rfl rfl rfl (by decide) (fun _ => rfl) rfl).2
    (by decide)).2 (by decide)
  exact h

/-! ## Anchor DAG walk (`getUnprocessedParentAnchors`)

The handler's implementation (`pkg/anchor/handler/credential`) is not among
the sources — only its tests (`TestGetUnprocessedParentAnchorEvents` in
`builder.go`) are — so the walk is modelled from the spec (§4.13). -/

/-- Modelled from the spec: the environment of the DAG walk. `parents hl`
gives the `up` references of the anchor linkset resolved at `hl` (resolution
through the CAS resolver is taken to succeed); `processed hl` is the
processed-anchor check against the anchor link store. -/
structure DagEnv where
  parents : String → List String
  processed : String → Bool

/-- Append an element unless it is already present (the walk's
deduplication by hashlink: an anchor is added once, at its first
occurrence). -/
def addIfAbsent (acc : List String) (x : String) : List String :=
  if x ∈ acc then acc else acc ++ [x]

/-- Modelled from the spec: the worklist walk behind
`getUnprocessedParentAnchors`. For each `up` reference in order: a processed
anchor is skipped; otherwise its own ancestors are collected first
(recursing with one unit of fuel less — the bounded depth that makes cycles
permanent errors, `none`), merged into the accumulator with deduplication,
and the anchor itself is appended after them. -/
def walkFrom (env : DagEnv) (fuel : Nat) (ups acc : List String) :
    Option (List String) :=
  match ups with
  | [] => some acc
  | p :: rest =>
    if env.processed p then walkFrom env fuel rest acc
    else
      match fuel with
      | 0 => none
      | fuel' + 1 =>
        match walkFrom env fuel' (env.parents p) [] with
        | none => none
        | some anc =>
          walkFrom env (fuel' + 1) rest
            (addIfAbsent (List.foldl addIfAbsent acc anc) p)
termination_by (fuel, ups.length)
decreasing_by
  · simp_wf
    omega
  · simp_wf
    omega
  · simp_wf
    omega

/-- Modelled from the spec:
`getUnprocessedParentAnchors(hl, anchorLink)` walks the linkset's `up`
references and returns the unprocessed ancestors, deepest first. -/
def getUnprocessedParentAnchors (env : DagEnv) (fuel : Nat)
    (ups : List String) : Option (List String) :=
  walkFrom env fuel ups []

/-- `UnprocAnc env ups x`: `x` is an unprocessed ancestor reachable from the
`up` references `ups` through unprocessed anchors (the anchors the spec's
walk must return: processed anchors are skipped without recursing). -/
inductive UnprocAnc (env : DagEnv) : List String → String → Prop where
  | direct (ups : List String) (p : String) :
      p ∈ ups → env.processed p = false → UnprocAnc env ups p
  | step (ups : List String) (p q : String) :
      p ∈ ups → env.processed p = false →
      UnprocAnc env (env.parents p) q → UnprocAnc env ups q

theorem unprocAnc_nil (env : DagEnv) (x : String) :
    ¬ UnprocAnc env [] x := by
  intro h
  cases h with
  | direct _ _ hmem _ => cases hmem
  | step _ _ _ hmem _ _ => cases hmem

theorem unprocAnc_cons (env : DagEnv) (p : String) (rest : List String)
    (x : String) :
    UnprocAnc env (p :: rest) x ↔
      UnprocAnc env rest x ∨
        (env.processed p = false ∧
          (x = p ∨ UnprocAnc env (env.parents p) x)) := by
  constructor
  · intro h
    cases h with
    | direct _ p' hmem hproc =>
      rcases List.mem_cons.mp hmem with rfl | hmem'
      · exact Or.inr ⟨hproc, Or.inl rfl⟩
      · exact Or.inl (UnprocAnc.direct _ _ hmem' hproc)
    | step _ p' q hmem hproc hanc =>
      rcases List.mem_cons.mp hmem with rfl | hmem'
      · exact Or.inr ⟨hproc, Or.inr hanc⟩
      · exact Or.inl (UnprocAnc.step _ _ _ hmem' hproc hanc)
  · intro h
    rcases h with h | ⟨hproc, rfl | hanc⟩
    · cases h with
      | direct _ p' hmem hproc => exact UnprocAnc.direct _ _ (by simp [hmem]) hproc
      | step _ p' q hmem hproc hanc =>
        exact UnprocAnc.step _ _ _ (by simp [hmem]) hproc hanc
    · exact UnprocAnc.direct _ _ (by simp) hproc
    · exact UnprocAnc.step _ _ _ (by simp) hproc hanc

theorem mem_addIfAbsent (acc : List String) (y x : String) :
    x ∈ addIfAbsent acc y ↔ x ∈ acc ∨ x = y := by
  unfold addIfAbsent
  by_cases h : y ∈ acc
  · simp only [h, if_pos]
    constructor
    · exact Or.inl
    · rintro (hx | rfl)
      · exact hx
      · exact h
  · simp [h]

theorem addIfAbsent_nodup (acc : List String) (y : String)
    (h : acc.Nodup) : (addIfAbsent acc y).Nodup := by
  unfold addIfAbsent
  by_cases hy : y ∈ acc
  · simpa [hy] using h
  · rw [if_neg hy, List.nodup_append]
    refine ⟨h, List.nodup_singleton y, ?_⟩
    intro a ha hay
    simp only [List.mem_singleton] at hay
    subst hay
    exact hy ha

theorem addIfAbsent_isPrefix (acc : List String) (y : String) :
    acc <+: addIfAbsent acc y := by
  unfold addIfAbsent
  by_cases hy : y ∈ acc
  · simp [hy]
  · simp only [hy, if_neg, if_false]
    exact ⟨[y], rfl⟩

theorem mem_foldl_addIfAbsent (anc : List String) (acc : List String)
    (x : String) :
    x ∈ List.foldl addIfAbsent acc anc ↔ x ∈ acc ∨ x ∈ anc := by
  induction anc generalizing acc with
  | nil => simp
  | cons y anc ih =>
    rw [List.foldl_cons, ih, mem_addIfAbsent]
    simp only [List.mem_cons]
    tauto

theorem foldl_addIfAbsent_nodup (anc : List String) (acc : List String)
    (h : acc.Nodup) : (List.foldl addIfAbsent acc anc).Nodup := by
  induction anc generalizing acc with
  | nil => exact h
  | cons y anc ih => exact ih _ (addIfAbsent_nodup _ _ h)

theorem foldl_addIfAbsent_isPrefix (anc : List String) (acc : List String) :
    acc <+: List.foldl addIfAbsent acc anc := by
  induction anc generalizing acc with
  | nil => exact List.prefix_refl acc
  | cons y anc ih =>
    exact (addIfAbsent_isPrefix acc y).trans (ih (addIfAbsent acc y))

theorem pair_sublist_cons {p q x : String} {l : List String}
    (h : [p, q].Sublist (x :: l)) :
    [p, q].Sublist l ∨ (p = x ∧ [q].Sublist l) := by
  cases h with
  | cons _ h' => exact Or.inl h'
  | cons₂ _ h' => exact Or.inr ⟨rfl, h'⟩

theorem before_foldl_of_mem_acc (p q : String) :
    ∀ (anc acc : List String), p ∈ acc → q ∉ acc → q ∈ anc →
      [p, q].Sublist (List.foldl addIfAbsent acc anc) := by
  intro anc
  induction anc with
  | nil =>
    intro acc _ _ hq
    cases hq
  | cons x anc ih =>
    intro acc hp hq hqanc
    rw [List.foldl_cons]
    by_cases hqx : q = x
    · subst hqx
      have hadd : addIfAbsent acc q = acc ++ [q] := by
        unfold addIfAbsent
        rw [if_neg hq]
      have hsub : [p, q].Sublist (acc ++ [q]) := by
        have h1 : [p].Sublist acc := List.singleton_sublist.mpr hp
        simpa using List.Sublist.append h1 (List.Sublist.refl [q])
      have hstep : [p, q].Sublist (addIfAbsent acc q) := by
        rw [hadd]
        exact hsub
      exact hstep.trans (foldl_addIfAbsent_isPrefix anc (addIfAbsent acc q)).sublist
    · have hq' : q ∈ anc := by
        rcases List.mem_cons.mp hqanc with h | h
        · exact absurd h hqx
        · exact h
      apply ih (addIfAbsent acc x)
      · rw [mem_addIfAbsent]
        exact Or.inl hp
      · rw [mem_addIfAbsent]
        push_neg
        exact ⟨hq, hqx⟩
      · exact hq'

theorem before_foldl_of_sublist (p q : String) :
    ∀ (anc : List String), anc.Nodup → ∀ (acc : List String),
      p ∉ acc → q ∉ acc → [p, q].Sublist anc →
      [p, q].Sublist (List.foldl addIfAbsent acc anc) := by
  intro anc
  induction anc with
  | nil =>
    intro _ acc _ _ hs
    simp at hs
  | cons x anc ih =>
    intro hnd acc hp hq hs
    rw [List.nodup_cons] at hnd
    rw [List.foldl_cons]
    rcases pair_sublist_cons hs with hs' | ⟨rfl, hs'⟩
    · have hpanc : p ∈ anc := hs'.subset (by simp)
      have hqanc : q ∈ anc := hs'.subset (by simp)
      have hpx : p ≠ x := fun h => hnd.1 (h ▸ hpanc)
      have hqx : q ≠ x := fun h => hnd.1 (h ▸ hqanc)
      apply ih hnd.2 (addIfAbsent acc x)
      · rw [mem_addIfAbsent]
        push_neg
        exact ⟨hp, hpx⟩
      · rw [mem_addIfAbsent]
        push_neg
        exact ⟨hq, hqx⟩
      · exact hs'
    · have hqanc : q ∈ anc := List.singleton_sublist.mp hs'
      have hqp : q ∉ addIfAbsent acc p := by
        rw [mem_addIfAbsent]
        push_neg
        exact ⟨hq, fun h => hnd.1 (h ▸ hqanc)⟩
      apply before_foldl_of_mem_acc p q anc (addIfAbsent acc p)
      · rw [mem_addIfAbsent]
        exact Or.inr rfl
      · exact hqp
      · exact hqanc

/-- The reverse-topological-order invariant: every unprocessed parent of a
listed anchor appears in the list before it. -/
def OrderOK (env : DagEnv) (l : List String) : Prop :=
  ∀ q ∈ l, ∀ p ∈ env.parents q, env.processed p = false → [p, q].Sublist l

theorem orderOK_nil (env : DagEnv) : OrderOK env [] := by
  intro q hq
  cases hq

theorem orderOK_foldl (env : DagEnv) (acc anc : List String)
    (hacc : OrderOK env acc) (hanc : OrderOK env anc) (hnd : anc.Nodup) :
    OrderOK env (List.foldl addIfAbsent acc anc) := by
  intro q hq p hpar hproc
  rw [mem_foldl_addIfAbsent] at hq
  by_cases hqacc : q ∈ acc
  · exact (hacc q hqacc p hpar hproc).trans
      (foldl_addIfAbsent_isPrefix anc acc).sublist
  · have hqanc : q ∈ anc := by
      rcases hq with h | h
      · exact absurd h hqacc
      · exact h
    have hpq : [p, q].Sublist anc := hanc q hqanc p hpar hproc
    by_cases hpacc : p ∈ acc
    · exact before_foldl_of_mem_acc p q anc acc hpacc hqacc hqanc
    · exact before_foldl_of_sublist p q anc hnd acc hpacc hqacc hpq

theorem orderOK_addParent (env : DagEnv) (acc₂ : List String) (p : String)
    (hord₂ : OrderOK env acc₂)
    (hpar : ∀ pr ∈ env.parents p, env.processed pr = false → pr ∈ acc₂) :
    OrderOK env (addIfAbsent acc₂ p) := by
  intro q hq pr hpr hprproc
  rw [mem_addIfAbsent] at hq
  by_cases hpmem : p ∈ acc₂
  · have heq : addIfAbsent acc₂ p = acc₂ := by
      unfold addIfAbsent
      rw [if_pos hpmem]
    rw [heq]
    rcases hq with hq | rfl
    · exact hord₂ q hq pr hpr hprproc
    · exact hord₂ q hpmem pr hpr hprproc
  · have hadd : addIfAbsent acc₂ p = acc₂ ++ [p] := by
      unfold addIfAbsent
      rw [if_neg hpmem]
    rw [hadd]
    rcases hq with hq | rfl
    · exact (hord₂ q hq pr hpr hprproc).trans
        (List.prefix_append acc₂ [p]).sublist
    · have h1 : [pr].Sublist acc₂ :=
        List.singleton_sublist.mpr (hpar pr hpr hprproc)
      simpa using List.Sublist.append h1 (List.Sublist.refl [q])

theorem walkFrom_spec (env : DagEnv) :
    ∀ (fuel : Nat) (ups acc l : List String),
      acc.Nodup → OrderOK env acc →
      walkFrom env fuel ups acc = some l →
      (acc <+: l) ∧ l.Nodup ∧
      (∀ x, x ∈ l ↔ x ∈ acc ∨ UnprocAnc env ups x) ∧ OrderOK env l := by
  intro fuel
  induction fuel using Nat.strong_induction_on with
  | _ fuel ihf =>
    intro ups
    induction ups with
    | nil =>
      intro acc l hnd hord hw
      unfold walkFrom at hw
      cases hw
      refine ⟨List.prefix_refl _, hnd, ?_, hord⟩
      intro x
      constructor
      · exact Or.inl
      · rintro (h | h)
        · exact h
        · exact absurd h (unprocAnc_nil env x)
    | cons p rest ihr =>
      intro acc l hnd hord hw
      unfold walkFrom at hw
      by_cases hproc : env.processed p
      · rw [if_pos hproc] at hw
        obtain ⟨hpre, hnd', hmem, hord'⟩ := ihr acc l hnd hord hw
        refine ⟨hpre, hnd', ?_, hord'⟩
        intro x
        rw [hmem, unprocAnc_cons]
        constructor
        · rintro (h | h)
          · exact Or.inl h
          · exact Or.inr (Or.inl h)
        · rintro (h | h | ⟨hfalse, _⟩)
          · exact Or.inl h
          · exact Or.inr h
          · rw [hproc] at hfalse
            cases hfalse
      · rw [if_neg hproc] at hw
        have hprocf : env.processed p = false := Bool.eq_false_iff.mpr hproc
        cases fuel with
        | zero => exact Option.noConfusion hw
        | succ f =>
          dsimp only at hw
          rcases hsub : walkFrom env f (env.parents p) [] with _ | anc
          · rw [hsub] at hw
            exact Option.noConfusion hw
          · rw [hsub] at hw
            obtain ⟨_, hndA, hmemA, hordA⟩ :=
              ihf f (Nat.lt_succ_self f) (env.parents p) [] anc
                List.nodup_nil (orderOK_nil env) hsub
            have hmemA' : ∀ x, x ∈ anc ↔ UnprocAnc env (env.parents p) x := by
              intro x
              rw [hmemA x]
              constructor
              · rintro (h | h)
                · cases h
                · exact h
              · exact Or.inr
            have hnd₂ : (List.foldl addIfAbsent acc anc).Nodup :=
              foldl_addIfAbsent_nodup anc acc hnd
            have hord₂ : OrderOK env (List.foldl addIfAbsent acc anc) :=
              orderOK_foldl env acc anc hord hordA hndA
            have hord₃ :
                OrderOK env (addIfAbsent (List.foldl addIfAbsent acc anc) p) := by
              apply orderOK_addParent env _ p hord₂
              intro pr hpr hprproc
              rw [mem_foldl_addIfAbsent]
              exact Or.inr
                ((hmemA' pr).mpr (UnprocAnc.direct _ _ hpr hprproc))
            have hnd₃ :
                (addIfAbsent (List.foldl addIfAbsent acc anc) p).Nodup :=
              addIfAbsent_nodup _ _ hnd₂
            obtain ⟨hpre', hnd', hmem', hord'⟩ := ihr _ l hnd₃ hord₃ hw
            refine ⟨?_, hnd', ?_, hord'⟩
            · exact ((foldl_addIfAbsent_isPrefix anc acc).trans
                (addIfAbsent_isPrefix _ p)).trans hpre'
            · intro x
              rw [hmem' x, mem_addIfAbsent, mem_foldl_addIfAbsent,
                unprocAnc_cons, hmemA' x]
              constructor
              · rintro (((hx | hx) | rfl) | hx)
                · exact Or.inl hx
                · exact Or.inr (Or.inr ⟨hprocf, Or.inr hx⟩)
                · exact Or.inr (Or.inr ⟨hprocf, Or.inl rfl⟩)
                · exact Or.inr (Or.inl hx)
              · rintro (hx | hx | ⟨_, rfl | hx⟩)
                · exact Or.inl (Or.inl (Or.inl hx))
                · exact Or.inr hx
                · exact Or.inl (Or.inr rfl)
                · exact Or.inl (Or.inl (Or.inr hx))

/-- C1: whenever the DAG walk succeeds within its depth bound, it returns
exactly the unprocessed ancestors of the anchor's `up` references (those
reachable through unprocessed anchors — processed anchors are skipped
without recursing), each hashlink appears at most once even when an `up`
reference occurs multiple times, and the order is reverse topological:
every unprocessed parent of a returned anchor appears before it, so the
deepest ancestors come first and each direct parent comes after all of its
own ancestors. -/
theorem claim_C1_dag_walk (env : DagEnv) (fuel : Nat)
    (ups l : List String)
    (hw : getUnprocessedParentAnchors env fuel ups = some l) :
    l.Nodup ∧
    (∀ x, x ∈ l ↔ UnprocAnc env ups x) ∧
    (∀ q ∈ l, ∀ p ∈ env.parents q, env.processed p = false →
      [p, q].Sublist l) := by
  obtain ⟨_, hnd, hmem, hord⟩ :=
    walkFrom_spec env fuel ups [] l List.nodup_nil (orderOK_nil env) hw
  refine ⟨hnd, ?_, hord⟩
  intro x
  rw [hmem x]
  constructor
  · rintro (h | h)
    · cases h
    · exact h
  · exact Or.inr

/-- A concrete DAG mirroring the handler test: the triggering anchor's
linkset carries the same parent `up` reference twice, the parent's linkset
references the grandparent, and nothing is processed yet. -/
def envC1 : DagEnv where
  parents := fun hl => if hl = "hl:parent" then ["hl:grandparent"] else []
  processed := fun _ => false

theorem claim_C1_witness :
    getUnprocessedParentAnchors envC1 5 ["hl:parent", "hl:parent"] =
      some ["hl:grandparent", "hl:parent"] ∧
    (["hl:grandparent", "hl:parent"] : List String).Nodup ∧
    (∀ x, x ∈ (["hl:grandparent", "hl:parent"] : List String) ↔
      UnprocAnc envC1 ["hl:parent", "hl:parent"] x) ∧
    (∀ q ∈ (["hl:grandparent", "hl:parent"] : List String),
      ∀ p ∈ envC1.parents q, envC1.processed p = false →
        [p, q].Sublist ["hl:grandparent", "hl:parent"]) := by
  have hw : getUnprocessedParentAnchors envC1 5 ["hl:parent", "hl:parent"] =
      some ["hl:grandparent", "hl:parent"] := by
    simp [getUnprocessedParentAnchors, walkFrom, envC1, addIfAbsent]
  exact ⟨hw, claim_C1_dag_walk envC1 5 _ _ hw⟩

end Orb
